import Mathlib

/-!
Verification of the cluster-labeling core of the `phy` repository.

The repository's `src/` tree contains `cluster_info.py` (ClusterMetadata),
`store.py` (MemoryStore / DiskStore / Store) and the test files.  The module
`clustering.py` (the `Clustering` class and its helper functions) is not
present under `src/`; only its test file
`src/phy/cluster/manual/tests/test_clustering.py` is.  The definitions below
that concern `Clustering` and its helpers are therefore modelled from the
natural-language specification, with the behaviour pinned down by the
concrete input/output pairs asserted in the test file.  Definitions for
`ClusterMetadata` and the stores are translated directly from the Python
sources.

Conventions: spike-cluster arrays are `List Nat` (one entry per spike index,
value = cluster id); dictionaries are association lists; numpy "fancy"
indexed writes become `writeAllPairs`.
-/

namespace Phy

/-- Maximum of a list of naturals, 0 for the empty list (models `np.max`
on a non-empty array of non-negative ids). -/
def maxval (l : List Nat) : Nat := l.foldr max 0

/-- Modelled from the spec: `_unique` (from the absent `_utils.py`), i.e.
`np.unique`: the ascending list of distinct values of `l`. -/
def _unique (l : List Nat) : List Nat :=
  (List.range (maxval l + 1)).filter (fun c => decide (c ∈ l))

/-- Modelled from the spec: `_spikes_in_clusters(spike_clusters, clusters)`
(from the absent `_utils.py`): the ascending list of spike indices whose
current label belongs to `clusters`. -/
def _spikes_in_clusters (spike_clusters : List Nat) (clusters : List Nat) : List Nat :=
  (List.range spike_clusters.length).filter
    (fun i => decide (spike_clusters.getD i 0 ∈ clusters))

/-- Modelled from the spec: `_extend_spikes(spike_ids, spike_clusters)`
(from the absent `clustering.py`): all spikes belonging to the clusters
containing the specified spikes, minus the specified spikes themselves.
Behaviour pinned by `test_extend_spikes_simple`. -/
def _extend_spikes (spike_ids : List Nat) (spike_clusters : List Nat) : List Nat :=
  (_spikes_in_clusters spike_clusters
      (_unique (spike_ids.map (fun i => spike_clusters.getD i 0)))).filter
    (fun i => decide (i ∉ spike_ids))

/-- Models `_index_of(arr, lookup)`: the position of each element of `l`
in the reference list `ref`. -/
def _index_of (l : List Nat) (ref : List Nat) : List Nat :=
  l.map (fun x => ref.indexOf x)

/-- Modelled from the spec: `_concatenate_spike_clusters` (from the absent
`clustering.py`): concatenate `(spike_ids, spike_clusters)` pairs and sort
them by spike id.  Behaviour pinned by `test_concatenate_spike_clusters`. -/
def _concatenate_spike_clusters (p q : List Nat × List Nat) : List Nat × List Nat :=
  let pairs := List.insertionSort (fun a b : Nat × Nat => a.1 ≤ b.1)
    (p.1.zip p.2 ++ q.1.zip q.2)
  (pairs.map Prod.fst, pairs.map Prod.snd)

/-- Modelled from the spec: `_extend_assignement(spike_ids, spike_clusters,
spike_clusters_rel)` (from the absent `clustering.py`).  Distinct relative
values are sorted ascending and mapped to consecutive new ids starting at
`max(spike_clusters)+1`; the remainders of partially affected clusters are
then mapped, grouped by old cluster, to the following consecutive ids.
Behaviour pinned by `test_extend_assignement`. -/
def _extend_assignement (spike_ids : List Nat) (spike_clusters : List Nat)
    (spike_clusters_rel : List Nat) : List Nat × List Nat :=
  let nci := maxval spike_clusters + 1
  let new_spike_clusters :=
    (_index_of spike_clusters_rel (_unique spike_clusters_rel)).map (fun x => x + nci)
  let extended_spike_ids := _extend_spikes spike_ids spike_clusters
  if extended_spike_ids.isEmpty then (spike_ids, new_spike_clusters)
  else
    let extended_spike_clusters :=
      extended_spike_ids.map (fun i => spike_clusters.getD i 0)
    let k := maxval new_spike_clusters + 1
    let extended_new :=
      (_index_of extended_spike_clusters (_unique extended_spike_clusters)).map
        (fun x => x + k)
    _concatenate_spike_clusters (spike_ids, new_spike_clusters)
      (extended_spike_ids, extended_new)

/-- The `UpdateInfo` record (`_update_info.py`, referenced by the sources in
`src/`): an immutable change record returned by every mutating call. -/
structure UpdateInfo where
  description : String := ""
  spikes : List Nat := []
  added : List Nat := []
  deleted : List Nat := []
  descendants : List (Nat × Nat) := []
  metadata_changed : List Nat := []
deriving DecidableEq, Repr

/-- Lexicographic order on pairs of naturals, used to present `descendants`
as a sorted list of distinct pairs. -/
def pairLe (a b : Nat × Nat) : Prop := a.1 < b.1 ∨ (a.1 = b.1 ∧ a.2 ≤ b.2)

instance : DecidableRel pairLe := fun a b => by
  unfold pairLe; exact inferInstance

/-- Sorted list of the distinct pairs of `l`. -/
def sortedPairs (l : List (Nat × Nat)) : List (Nat × Nat) :=
  List.insertionSort pairLe l.dedup

/-- Numpy-style fancy write: `arr[i] = v` for each pair `(i, v)` in order. -/
def writeAllPairs (sc : List Nat) (pairs : List (Nat × Nat)) : List Nat :=
  pairs.foldl (fun a p => a.set p.1 p.2) sc

/-- Modelled from the spec: the core `_do_assign` step of the absent
`clustering.py`: relabel the given spikes and build the `UpdateInfo`
(`added` = distinct new labels, `deleted` = distinct old labels of the
reassigned spikes, `descendants` = distinct (old, new) pairs). -/
def _do_assign (sc : List Nat) (spike_ids new_ids : List Nat) (descr : String) :
    List Nat × UpdateInfo :=
  let old := spike_ids.map (fun i => sc.getD i 0)
  (writeAllPairs sc (spike_ids.zip new_ids),
   { description := descr
     spikes := spike_ids
     added := _unique new_ids
     deleted := _unique old
     descendants := sortedPairs (old.zip new_ids) })

/-- Modelled from the spec: the `Clustering` state (absent `clustering.py`):
the current label array, the base snapshot taken at construction, and the
undo stack of `(spike_ids, cluster_ids)` deltas with its cursor. -/
structure Clustering where
  spike_clusters : List Nat
  spike_clusters_base : List Nat
  undo_stack : List (List Nat × List Nat)
  index : Nat
deriving DecidableEq, Repr

/-- Construct a `Clustering` from an initial label array. -/
def Clustering.mk0 (sc : List Nat) : Clustering := ⟨sc, sc, [], 0⟩

/-- Modelled from the spec as pinned by the src test
(`test_clustering_merge`, which asserts `new_cluster_id() == 14` right
after undoing the merge that minted 14): `new_cluster_id` is
`max(current cluster ids) + 1`, not a session-wide high-water mark. -/
def new_cluster_id (c : Clustering) : Nat := maxval c.spike_clusters + 1

/-- Error taxonomy, modelled from the spec's §7 (the absent `clustering.py`
raises `ValueError` in the src tests; the spec distinguishes the cases). -/
inductive ClusteringError where
  | invalidOperation
  | unknownCluster
  | invalidSpikeId
deriving DecidableEq, Repr

/-- Apply a validated assignment: relabel, truncate the redo tail of the
undo stack, push the delta, advance the cursor. -/
def pushAssign (c : Clustering) (spike_ids new_ids : List Nat) (descr : String) :
    Clustering × UpdateInfo :=
  let r := _do_assign c.spike_clusters spike_ids new_ids descr
  ({ c with spike_clusters := r.1,
            undo_stack := c.undo_stack.take c.index ++ [(spike_ids, new_ids)],
            index := c.index + 1 }, r.2)

/-- Modelled from the spec: `Clustering.merge(cluster_ids, to)`: requires at
least two cluster ids (`InvalidOperation`), all currently present
(`UnknownCluster`); relabels all their spikes to `to`, defaulting to
`new_cluster_id()`. -/
def Clustering.merge (c : Clustering) (cluster_ids : List Nat) (toId : Option Nat) :
    Except ClusteringError (Clustering × UpdateInfo) :=
  if cluster_ids.length < 2 then .error .invalidOperation
  else if cluster_ids.any (fun cl => !(decide (cl ∈ c.spike_clusters))) then
    .error .unknownCluster
  else
    let t := toId.getD (new_cluster_id c)
    let spike_ids := _spikes_in_clusters c.spike_clusters cluster_ids
    .ok (pushAssign c spike_ids (List.replicate spike_ids.length t) "merge")

/-- Modelled from the spec: `Clustering.assign(spike_ids, cluster_ids_rel)`:
requires every spike id to be a valid spike index (`InvalidSpikeId`); the
relative ids default to all-zero; extends the assignment to whole affected
clusters via `_extend_assignement`. -/
def Clustering.assign (c : Clustering) (spike_ids : List Nat)
    (cluster_ids_rel : Option (List Nat)) :
    Except ClusteringError (Clustering × UpdateInfo) :=
  if spike_ids.any (fun i => decide (c.spike_clusters.length ≤ i)) then
    .error .invalidSpikeId
  else if (cluster_ids_rel.getD (List.replicate spike_ids.length 0)).length ≠
      spike_ids.length then .error .invalidOperation
  else
    .ok (pushAssign c
      (_extend_assignement spike_ids c.spike_clusters
        (cluster_ids_rel.getD (List.replicate spike_ids.length 0))).1
      (_extend_assignement spike_ids c.spike_clusters
        (cluster_ids_rel.getD (List.replicate spike_ids.length 0))).2
      "assign")

/-- Modelled from the spec: `Clustering.split` reduces to `assign`. -/
def Clustering.split (c : Clustering) (spike_ids : List Nat)
    (cluster_ids_rel : Option (List Nat)) :
    Except ClusteringError (Clustering × UpdateInfo) :=
  Clustering.assign c spike_ids cluster_ids_rel

/-- Replay a list of deltas on top of a base array (the spec's
base-snapshot-plus-replay undo design). -/
def replay (base : List Nat) (entries : List (List Nat × List Nat)) : List Nat :=
  entries.foldl (fun sc e => writeAllPairs sc (e.1.zip e.2)) base

/-- Modelled from the spec: `Clustering.undo()`: a no-op returning null at
the earliest position; otherwise restore the base snapshot, replay every
remaining delta except the undone one, and report the reverse transition. -/
def Clustering.undo (c : Clustering) : Clustering × Option UpdateInfo :=
  if c.index = 0 then (c, none)
  else
    let i2 := c.index - 1
    let sc2 := replay c.spike_clusters_base (c.undo_stack.take i2)
    let changed := (List.range c.spike_clusters.length).filter
      (fun j => decide (c.spike_clusters.getD j 0 ≠ sc2.getD j 0))
    let info := (_do_assign c.spike_clusters changed
      (changed.map (fun j => sc2.getD j 0)) "assign").2
    ({ c with spike_clusters := sc2, index := i2 }, some info)

/-- Modelled from the spec: `Clustering.redo()`: a no-op returning null at
the latest position; otherwise re-apply the next delta. -/
def Clustering.redo (c : Clustering) : Clustering × Option UpdateInfo :=
  if c.index < c.undo_stack.length then
    let e := c.undo_stack.getD c.index ([], [])
    let r := _do_assign c.spike_clusters e.1 e.2 "assign"
    ({ c with spike_clusters := r.1, index := c.index + 1 }, some r.2)
  else (c, none)

/-- One session operation. -/
inductive Op where
  | merge (cluster_ids : List Nat) (toId : Option Nat)
  | split (spike_ids : List Nat) (cluster_ids_rel : Option (List Nat))
  | assign (spike_ids : List Nat) (cluster_ids_rel : Option (List Nat))
  | undo
  | redo

/-- One mutating (non-history) operation. -/
inductive MutOp where
  | merge (cluster_ids : List Nat) (toId : Option Nat)
  | split (spike_ids : List Nat) (cluster_ids_rel : Option (List Nat))
  | assign (spike_ids : List Nat) (cluster_ids_rel : Option (List Nat))

/-- Run one mutating operation, propagating validation errors. -/
def Clustering.applyMut (c : Clustering) : MutOp →
    Except ClusteringError (Clustering × UpdateInfo)
  | .merge ids t => c.merge ids t
  | .split ids rel => c.split ids rel
  | .assign ids rel => c.assign ids rel

/-- Run one operation; a rejected call leaves the state unchanged. -/
def Clustering.step (c : Clustering) : Op → Clustering
  | .merge ids t => match c.merge ids t with | .ok p => p.1 | .error _ => c
  | .split ids rel => match c.split ids rel with | .ok p => p.1 | .error _ => c
  | .assign ids rel => match c.assign ids rel with | .ok p => p.1 | .error _ => c
  | .undo => c.undo.1
  | .redo => c.redo.1

/-- Run a whole session: construct from the initial labels and fold the
operations. -/
def runOps (sc0 : List Nat) (ops : List Op) : Clustering :=
  ops.foldl Clustering.step (Clustering.mk0 sc0)

/-- Modelled from the spec: the derived `spikes_per_cluster` mapping,
cluster id → ascending list of its spike indices. -/
def spikes_per_cluster (sc : List Nat) : List (Nat × List Nat) :=
  (_unique sc).map
    (fun cl => (cl, (List.range sc.length).filter (fun i => decide (sc.getD i 0 = cl))))

/-- Modelled from the spec: `_flatten_spikes_per_cluster` (absent
`_utils.py`): the inverse reading of the mapping — spike index `i` is
labelled by the cluster whose spike list contains `i`. -/
def _flatten_spikes_per_cluster (n : Nat) (spc : List (Nat × List Nat)) : List Nat :=
  (List.range n).map
    (fun i => ((spc.find? (fun p => p.2.contains i)).map Prod.fst).getD 0)

/-! ### ClusterMetadata, from `src/phy/cluster/manual/cluster_info.py`

Field values are naturals; a missing value is `none`.  The `History` class
(`_history.py`, absent from `src/`) is modelled from the spec's §4.2 as the
entry list plus a cursor counting the applied entries; the base sentinel is
implicit at cursor 0. -/

/-- Replace the value of key `k` in an association list, or append it. -/
def setField (l : List (String × Nat)) (k : String) (v : Nat) : List (String × Nat) :=
  match l with
  | [] => [(k, v)]
  | (k1, v1) :: t => if k1 = k then (k, v) :: t else (k1, v1) :: setField t k v

/-- Replace the field `k` of cluster `c` in the per-cluster table
(`self._data[cluster][field] = value` on a defaultdict). -/
def setCluster (l : List (Nat × List (String × Nat))) (c : Nat) (k : String) (v : Nat) :
    List (Nat × List (String × Nat)) :=
  match l with
  | [] => [(c, [(k, v)])]
  | (c1, d) :: t => if c1 = c then (c, setField d k v) :: t else (c1, d) :: setCluster t c k v

/-- `ClusterMetadata` state (`cluster_info.py`): registered default field
functions, the per-cluster data table, the deep copy of the original table,
and the undo stack of `(clusters, field, value, update_info)` tuples. -/
structure ClusterMetadata where
  fields : List (String × (Nat → Nat))
  data : List (Nat × List (String × Nat))
  data_base : List (Nat × List (String × Nat))
  stack : List (List Nat × String × Nat × UpdateInfo)
  index : Nat

/-- `ClusterMetadata(data)`: fill the existing values and keep a deep copy
for the undo stack. -/
def ClusterMetadata.mk0 (data : List (Nat × List (String × Nat))) : ClusterMetadata :=
  ⟨[], data, data, [], 0⟩

/-- `ClusterMetadata._get_one(cluster, field)`: the stored field value for a
cluster, or the registered default function's value, or `None`. -/
def ClusterMetadata._get_one (m : ClusterMetadata) (cluster : Nat) (field : String) :
    Option Nat :=
  match m.data.lookup cluster with
  | some cdata =>
    match cdata.lookup field with
    | some v => some v
    | none =>
      match m.fields.lookup field with
      | some f => some (f cluster)
      | none => none
  | none =>
    match m.fields.lookup field with
    | some f => some (f cluster)
    | none => none

/-- `ClusterMetadata._get(clusters, field)` on a list of clusters. -/
def ClusterMetadata._get (m : ClusterMetadata) (clusters : List Nat) (field : String) :
    List (Option Nat) :=
  clusters.map (fun c => m._get_one c field)

/-- The data-table part of `ClusterMetadata._set` (used with
`add_to_stack=False` during undo/redo replay). -/
def ClusterMetadata.setNS (m : ClusterMetadata) (clusters : List Nat) (field : String)
    (value : Nat) : ClusterMetadata :=
  { m with data := clusters.foldl (fun d c => setCluster d c field value) m.data }

/-- `ClusterMetadata._set(clusters, field, value)`: write the value for
every named cluster, build the `UpdateInfo`, push onto the undo stack. -/
def ClusterMetadata.set (m : ClusterMetadata) (clusters : List Nat) (field : String)
    (value : Nat) : ClusterMetadata × UpdateInfo :=
  let m1 := m.setNS clusters field value
  let info : UpdateInfo :=
    { description := "metadata_" ++ field, metadata_changed := clusters }
  ({ m1 with stack := m.stack.take m.index ++ [(clusters, field, value, info)],
             index := m.index + 1 }, info)

/-- `ClusterMetadata.default(func)`: register the function as the default
field function. -/
def ClusterMetadata.registerDefault (m : ClusterMetadata) (field : String)
    (f : Nat → Nat) : ClusterMetadata :=
  { m with fields := (field, f) :: m.fields }

/-- `ClusterMetadata.undo()`: restore the deep copy of the base table, then
replay every remaining stack entry up to (excluding) the undone one; return
the undone entry's `UpdateInfo`. -/
def ClusterMetadata.undo (m : ClusterMetadata) : ClusterMetadata × Option UpdateInfo :=
  if m.index = 0 then (m, none)
  else
    let args := m.stack.getD (m.index - 1) ([], "", 0, {})
    let m1 := { m with data := m.data_base, index := m.index - 1 }
    let m2 := (m1.stack.take m1.index).foldl
      (fun mm e => mm.setNS e.1 e.2.1 e.2.2.1) m1
    (m2, some args.2.2.2)

/-- `ClusterMetadata.redo()`: re-apply the next stack entry and return its
`UpdateInfo`. -/
def ClusterMetadata.redo (m : ClusterMetadata) : ClusterMetadata × Option UpdateInfo :=
  if m.index < m.stack.length then
    let args := m.stack.getD m.index ([], "", 0, {})
    ({ m.setNS args.1 args.2.1 args.2.2.1 with index := m.index + 1 },
     some args.2.2.2)
  else (m, none)

/-! ### Stores, from `src/phy/cluster/manual/store.py`

`MemoryStore._ds` is a dict cluster → dict field → value; the `DiskStore`
directory is a map cluster → HDF5 file contents, also a field → value dict.
Both are association lists here. -/

/-- Storage location of a registered field. -/
inductive Loc where
  | memory
  | disk
deriving DecidableEq, Repr

/-- `MemoryStore`: cluster-related data in memory. -/
structure MemoryStore where
  ds : List (Nat × List (String × Nat))
deriving DecidableEq, Repr

/-- `DiskStore`: one file per cluster, each a key → value mapping. -/
structure DiskStore where
  files : List (Nat × List (String × Nat))
deriving DecidableEq, Repr

/-- Update the dict of cluster `c` with `data` (`self._ds[cluster].update(data)`
after defaulting to `{}`; for the disk store, opening the file in append
mode and setting each key). -/
def updateCluster (l : List (Nat × List (String × Nat))) (c : Nat)
    (data : List (String × Nat)) : List (Nat × List (String × Nat)) :=
  match l with
  | [] => [(c, data.foldl (fun d p => setField d p.1 p.2) [])]
  | (c1, d) :: t =>
    if c1 = c then (c, data.foldl (fun dd p => setField dd p.1 p.2) d) :: t
    else (c1, d) :: updateCluster t c data

/-- `MemoryStore.store(cluster, **data)`. -/
def MemoryStore.store (s : MemoryStore) (cluster : Nat) (data : List (String × Nat)) :
    MemoryStore :=
  ⟨updateCluster s.ds cluster data⟩

/-- `MemoryStore.load(cluster)` with `keys=None`: the cluster's dict,
`{}` if absent. -/
def MemoryStore.load (s : MemoryStore) (cluster : Nat) : List (String × Nat) :=
  (s.ds.lookup cluster).getD []

/-- `MemoryStore.clusters`: sorted list of cluster ids in the store. -/
def MemoryStore.clusters (s : MemoryStore) : List Nat :=
  List.insertionSort (· ≤ ·) (s.ds.map Prod.fst)

/-- `MemoryStore.delete(clusters)`: delete each listed cluster that is
present; absent ids are skipped. -/
def MemoryStore.delete (s : MemoryStore) (clusters : List Nat) : MemoryStore :=
  ⟨s.ds.filter (fun p => decide (p.1 ∉ clusters))⟩

/-- `DiskStore.store(cluster, **data)`: open the cluster file in append
mode and set each key. -/
def DiskStore.store (s : DiskStore) (cluster : Nat) (data : List (String × Nat)) :
    DiskStore :=
  ⟨updateCluster s.files cluster data⟩

/-- `DiskStore.load(cluster)` with `keys=None`: all datasets of the cluster
file, `{}` if the file does not exist. -/
def DiskStore.load (s : DiskStore) (cluster : Nat) : List (String × Nat) :=
  (s.files.lookup cluster).getD []

/-- `DiskStore.clusters`: sorted list of the cluster ids whose file exists. -/
def DiskStore.clusters (s : DiskStore) : List Nat :=
  List.insertionSort (· ≤ ·) (s.files.map Prod.fst)

/-- `DiskStore.delete(clusters)`: remove each listed cluster's file if it
exists; absent ids are skipped. -/
def DiskStore.delete (s : DiskStore) (clusters : List Nat) : DiskStore :=
  ⟨s.files.filter (fun p => decide (p.1 ∉ clusters))⟩

/-- `Store`: wraps a `MemoryStore` and a `DiskStore`, with the dispatch
dict field name → storage location. -/
structure Store where
  memory : MemoryStore
  disk : DiskStore
  dispatch : List (String × Loc)
deriving DecidableEq, Repr

/-- Dict update on the dispatch table. -/
def setDispatch (l : List (String × Loc)) (k : String) (v : Loc) : List (String × Loc) :=
  match l with
  | [] => [(k, v)]
  | (k1, v1) :: t => if k1 = k then (k, v) :: t else (k1, v1) :: setDispatch t k v

/-- `Store.register_field(name, location)`. -/
def Store.register_field (s : Store) (name : String) (location : Loc) : Store :=
  { s with dispatch := setDispatch s.dispatch name location }

/-- `Store._filter(keys, location)`: the keys registered at the given
location; unregistered keys match no location. -/
def Store.filterKeys (s : Store) (keys : List String) (location : Loc) : List String :=
  keys.filter (fun k => decide (s.dispatch.lookup k = some location))

/-- `Store.clusters`: compare the two tiers' sorted cluster-id lists; raise
`RuntimeError("Cluster store inconsistency.")` if they differ, else return
the common list. -/
def Store.clusters (s : Store) : Except String (List Nat) :=
  if s.memory.clusters ≠ s.disk.clusters then .error "Cluster store inconsistency."
  else .ok s.memory.clusters

/-- `Store.store(cluster, location, **data)`: if a location is given,
register all the data fields there; then store in each tier the sub-dict of
fields registered for that tier. -/
def Store.store (s : Store) (cluster : Nat) (location : Option Loc)
    (data : List (String × Nat)) : Store :=
  let s1 := match location with
    | some loc => data.foldl (fun (st : Store) (p : String × Nat) =>
        st.register_field p.1 loc) s
    | none => s
  let data_memory := data.filter
    (fun p => decide (s1.dispatch.lookup p.1 = some Loc.memory))
  let data_disk := data.filter
    (fun p => decide (s1.dispatch.lookup p.1 = some Loc.disk))
  { s1 with memory := s1.memory.store cluster data_memory,
            disk := s1.disk.store cluster data_disk }

/-- `Store.load(cluster)` with `keys=None`: concatenate the memory dict and
the disk dict of the cluster. -/
def Store.load (s : Store) (cluster : Nat) : List (String × Nat) :=
  s.memory.load cluster ++ s.disk.load cluster

/-- `Store.delete(clusters)`: delete from both tiers. -/
def Store.delete (s : Store) (clusters : List Nat) : Store :=
  { s with memory := s.memory.delete clusters, disk := s.disk.delete clusters }

/-! ### Basic lemmas about the helper functions -/

theorem le_maxval {x : Nat} {l : List Nat} (h : x ∈ l) : x ≤ maxval l := by
  induction l with
  | nil => cases h
  | cons a t ih =>
    simp only [maxval, List.foldr_cons] at *
    rcases List.mem_cons.mp h with rfl | h2
    · exact Nat.le_max_left _ _
    · exact Nat.le_trans (ih h2) (Nat.le_max_right _ _)

theorem maxval_mem : ∀ {l : List Nat}, l ≠ [] → maxval l ∈ l
  | [a], _ => by simp [maxval]
  | a :: b :: t, _ => by
    have ih := maxval_mem (l := b :: t) (by simp)
    show max a (maxval (b :: t)) ∈ a :: b :: t
    rcases Nat.le_total a (maxval (b :: t)) with h | h
    · rw [Nat.max_eq_right h]
      exact List.mem_cons_of_mem _ ih
    · rw [Nat.max_eq_left h]
      exact List.mem_cons_self _ _

theorem mem_unique {x : Nat} {l : List Nat} : x ∈ _unique l ↔ x ∈ l := by
  simp only [_unique, List.mem_filter, List.mem_range, decide_eq_true_eq]
  exact ⟨fun h => h.2, fun h => ⟨Nat.lt_succ_of_le (le_maxval h), h⟩⟩

theorem unique_sorted (l : List Nat) : (_unique l).Pairwise (· < ·) :=
  List.Pairwise.sublist (List.filter_sublist _) (List.pairwise_lt_range _)

theorem unique_nodup (l : List Nat) : (_unique l).Nodup :=
  (unique_sorted l).imp (fun h => Nat.ne_of_lt h)

theorem writeAllPairs_nil (sc : List Nat) : writeAllPairs sc [] = sc := rfl

theorem writeAllPairs_cons (sc : List Nat) (p : Nat × Nat) (ps : List (Nat × Nat)) :
    writeAllPairs sc (p :: ps) = writeAllPairs (sc.set p.1 p.2) ps := rfl

theorem writeAllPairs_length (ps : List (Nat × Nat)) :
    ∀ sc : List Nat, (writeAllPairs sc ps).length = sc.length := by
  induction ps with
  | nil => intro sc; rfl
  | cons p t ih => intro sc; rw [writeAllPairs_cons, ih, List.length_set]

theorem getD_set_ne {l : List Nat} {i j : Nat} (h : i ≠ j) (a d : Nat) :
    (l.set i a).getD j d = l.getD j d := by
  simp [List.getD, List.getElem?_set_ne h]

theorem getD_set_eq {l : List Nat} {i : Nat} (h : i < l.length) (a d : Nat) :
    (l.set i a).getD i d = a := by
  simp [List.getD, List.getElem?_set_eq_of_lt a h]

theorem writeAllPairs_getD_not_mem {j : Nat} :
    ∀ {ps : List (Nat × Nat)} (sc : List Nat), j ∉ ps.map Prod.fst →
      (writeAllPairs sc ps).getD j 0 = sc.getD j 0 := by
  intro ps
  induction ps with
  | nil => intro sc _; rfl
  | cons p t ih =>
    intro sc h
    simp only [List.map_cons, List.mem_cons, not_or] at h
    rw [writeAllPairs_cons, ih _ h.2, getD_set_ne (fun e => h.1 e.symm)]

theorem writeAllPairs_getD_mem {j v : Nat} :
    ∀ {ps : List (Nat × Nat)} (sc : List Nat), (ps.map Prod.fst).Nodup →
      (j, v) ∈ ps → j < sc.length → (writeAllPairs sc ps).getD j 0 = v := by
  intro ps
  induction ps with
  | nil => intro _ _ h; cases h
  | cons p t ih =>
    intro sc hnd hm hj
    simp only [List.map_cons, List.nodup_cons] at hnd
    rcases List.mem_cons.mp hm with rfl | h2
    · rw [writeAllPairs_cons, writeAllPairs_getD_not_mem _ hnd.1,
        getD_set_eq hj]
    · rw [writeAllPairs_cons]
      exact ih _ hnd.2 h2 (by rw [List.length_set]; exact hj)

theorem replay_cons (base : List Nat) (e : List Nat × List Nat)
    (es : List (List Nat × List Nat)) :
    replay base (e :: es) = replay (writeAllPairs base (e.1.zip e.2)) es := rfl

theorem replay_append (base : List Nat) (es : List (List Nat × List Nat))
    (e : List Nat × List Nat) :
    replay base (es ++ [e]) = writeAllPairs (replay base es) (e.1.zip e.2) := by
  simp [replay, List.foldl_append]

theorem replay_length (es : List (List Nat × List Nat)) :
    ∀ base : List Nat, (replay base es).length = base.length := by
  induction es with
  | nil => intro base; rfl
  | cons e t ih => intro base; rw [replay_cons, ih, writeAllPairs_length]

/-! ### The Clustering history invariant

For every state reachable through the public operations, the current label
array is the replay of the undo-stack prefix up to the cursor over the base
snapshot, and the cursor is inside the stack. -/

/-- History invariant of a `Clustering` state. -/
def Inv (c : Clustering) : Prop :=
  c.index ≤ c.undo_stack.length ∧
  c.spike_clusters = replay c.spike_clusters_base (c.undo_stack.take c.index)

theorem mk0_inv (sc : List Nat) : Inv (Clustering.mk0 sc) := ⟨Nat.zero_le _, rfl⟩

theorem pushAssign_fields (c : Clustering) (ids vals : List Nat) (d : String) :
    (pushAssign c ids vals d).1.spike_clusters = writeAllPairs c.spike_clusters (ids.zip vals) ∧
    (pushAssign c ids vals d).1.spike_clusters_base = c.spike_clusters_base ∧
    (pushAssign c ids vals d).1.undo_stack = c.undo_stack.take c.index ++ [(ids, vals)] ∧
    (pushAssign c ids vals d).1.index = c.index + 1 := by
  refine ⟨rfl, rfl, rfl, rfl⟩

theorem pushAssign_inv {c : Clustering} (hc : Inv c) (ids vals : List Nat) (d : String) :
    Inv (pushAssign c ids vals d).1 := by
  obtain ⟨h1, h2⟩ := hc
  obtain ⟨f1, f2, f3, f4⟩ := pushAssign_fields c ids vals d
  have hA : (c.undo_stack.take c.index).length = c.index := by
    rw [List.length_take]; exact Nat.min_eq_left h1
  constructor
  · rw [f3, f4, List.length_append, hA]; simp
  · rw [f1, f2, f3, f4]
    rw [List.take_of_length_le (by rw [List.length_append, hA]; simp),
      replay_append, ← h2]

theorem undo_inv {c : Clustering} (hc : Inv c) : Inv c.undo.1 := by
  unfold Clustering.undo
  split
  · exact hc
  · exact ⟨Nat.le_trans (Nat.sub_le _ _) hc.1, rfl⟩

theorem redo_inv {c : Clustering} (hc : Inv c) : Inv c.redo.1 := by
  unfold Clustering.redo
  split
  · next h =>
    refine ⟨h, ?_⟩
    simp only [_do_assign]
    rw [List.take_succ, List.getElem?_eq_getElem h]
    simp only [Option.toList_some]
    rw [replay_append, ← hc.2, List.getD_eq_getElem _ _ h]
  · exact hc

theorem merge_ok_shape {c : Clustering} {ids : List Nat} {t : Option Nat}
    {r : Clustering × UpdateInfo} (h : c.merge ids t = .ok r) :
    ∃ sids vals d, r = pushAssign c sids vals d := by
  unfold Clustering.merge at h
  split_ifs at h
  all_goals (cases h; try exact ⟨_, _, _, rfl⟩)

theorem assign_ok_shape {c : Clustering} {ids : List Nat} {rel : Option (List Nat)}
    {r : Clustering × UpdateInfo} (h : c.assign ids rel = .ok r) :
    ∃ sids vals d, r = pushAssign c sids vals d := by
  unfold Clustering.assign at h
  split_ifs at h
  all_goals (cases h; try exact ⟨_, _, _, rfl⟩)

theorem split_ok_shape {c : Clustering} {ids : List Nat} {rel : Option (List Nat)}
    {r : Clustering × UpdateInfo} (h : c.split ids rel = .ok r) :
    ∃ sids vals d, r = pushAssign c sids vals d :=
  assign_ok_shape h

theorem step_inv {c : Clustering} (hc : Inv c) (op : Op) : Inv (c.step op) := by
  cases op with
  | merge ids t =>
    cases h : c.merge ids t with
    | error e => simpa [Clustering.step, h] using hc
    | ok r =>
      obtain ⟨sids, vals, d, rfl⟩ := merge_ok_shape h
      simpa [Clustering.step, h] using pushAssign_inv hc sids vals d
  | split ids rel =>
    cases h : c.split ids rel with
    | error e => simpa [Clustering.step, h] using hc
    | ok r =>
      obtain ⟨sids, vals, d, rfl⟩ := split_ok_shape h
      simpa [Clustering.step, h] using pushAssign_inv hc sids vals d
  | assign ids rel =>
    cases h : c.assign ids rel with
    | error e => simpa [Clustering.step, h] using hc
    | ok r =>
      obtain ⟨sids, vals, d, rfl⟩ := assign_ok_shape h
      simpa [Clustering.step, h] using pushAssign_inv hc sids vals d
  | undo => exact undo_inv hc
  | redo => exact redo_inv hc

theorem foldl_step_inv (ops : List Op) :
    ∀ {c : Clustering}, Inv c → Inv (ops.foldl Clustering.step c) := by
  induction ops with
  | nil => intro c hc; exact hc
  | cons op t ih => intro c hc; exact ih (step_inv hc op)

theorem runOps_inv (sc0 : List Nat) (ops : List Op) : Inv (runOps sc0 ops) :=
  foldl_step_inv ops (mk0_inv sc0)

theorem step_base (c : Clustering) (op : Op) :
    (c.step op).spike_clusters_base = c.spike_clusters_base := by
  cases op with
  | merge ids t =>
    cases h : c.merge ids t with
    | error e => simp [Clustering.step, h]
    | ok r =>
      obtain ⟨sids, vals, d, rfl⟩ := merge_ok_shape h
      simp [Clustering.step, h, pushAssign]
  | split ids rel =>
    cases h : c.split ids rel with
    | error e => simp [Clustering.step, h]
    | ok r =>
      obtain ⟨sids, vals, d, rfl⟩ := split_ok_shape h
      simp [Clustering.step, h, pushAssign]
  | assign ids rel =>
    cases h : c.assign ids rel with
    | error e => simp [Clustering.step, h]
    | ok r =>
      obtain ⟨sids, vals, d, rfl⟩ := assign_ok_shape h
      simp [Clustering.step, h, pushAssign]
  | undo =>
    show c.undo.1.spike_clusters_base = c.spike_clusters_base
    unfold Clustering.undo
    split <;> rfl
  | redo =>
    show c.redo.1.spike_clusters_base = c.spike_clusters_base
    unfold Clustering.redo
    split <;> rfl

theorem runOps_base (sc0 : List Nat) (ops : List Op) :
    (runOps sc0 ops).spike_clusters_base = sc0 := by
  suffices h : ∀ (l : List Op) (c : Clustering),
      (l.foldl Clustering.step c).spike_clusters_base = c.spike_clusters_base by
    exact h ops (Clustering.mk0 sc0)
  intro l
  induction l with
  | nil => intro c; rfl
  | cons op t ih => intro c; rw [List.foldl_cons, ih, step_base]

theorem runOps_length (sc0 : List Nat) (ops : List Op) :
    (runOps sc0 ops).spike_clusters.length = sc0.length := by
  have h := (runOps_inv sc0 ops).2
  rw [h, replay_length, runOps_base]

/-! ### Claim theorems -/

/-- First component of a successful `Except` result, or `none`. -/
def okState {ε : Type} (r : Except ε (Clustering × UpdateInfo)) : Option Clustering :=
  match r with
  | .ok p => some p.1
  | .error _ => none

/-- The `added` ids of a successful `Except` result, or `none`. -/
def okAdded {ε : Type} (r : Except ε (Clustering × UpdateInfo)) : Option (List Nat) :=
  match r with
  | .ok p => some p.2.added
  | .error _ => none

/-- C1 counterexample.  Session: initial labels `[0, 1]`; `merge([0, 1])`
mints id 2 (`added = [2]`, labels become `[2, 2]`, so 2 is used in the
session); `undo()` restores `[0, 1]`; now `new_cluster_id()` returns 2
again — not strictly greater than the already-used id 2 — and a second
`merge([0, 1])` mints the same id 2 a second time.  This mirrors the src
test `test_clustering_merge`, which asserts `new_cluster_id() == 14` right
after undoing the merge that minted 14. -/
theorem C1_counterexample :
    okAdded ((Clustering.mk0 [0, 1]).merge [0, 1] none) = some [2] ∧
    ((Clustering.mk0 [0, 1]).step (Op.merge [0, 1] none)).spike_clusters = [2, 2] ∧
    new_cluster_id (((Clustering.mk0 [0, 1]).step (Op.merge [0, 1] none)).step Op.undo)
      = 2 ∧
    ¬ 2 < new_cluster_id
      (((Clustering.mk0 [0, 1]).step (Op.merge [0, 1] none)).step Op.undo) ∧
    okAdded ((((Clustering.mk0 [0, 1]).step (Op.merge [0, 1] none)).step
      Op.undo).merge [0, 1] none) = some [2] := by
  decide

/-- C1 (amended): in every reachable session state, the id returned by
`new_cluster_id()` is `1 + max(current ids)`, hence strictly greater than
every id currently present in the label array; ids minted by an operation
that was later undone (and ids deleted while a larger id remains) are not
tracked, and may be minted again. -/
theorem C1_new_cluster_id_gt_present (sc0 : List Nat) (ops : List Op) (x : Nat)
    (hx : x ∈ (runOps sc0 ops).spike_clusters) :
    x < new_cluster_id (runOps sc0 ops) :=
  Nat.lt_succ_of_le (le_maxval hx)

/-- Witness for C1's amended theorem at a concrete session. -/
theorem C1_witness :
    8 ∈ (runOps [2, 5, 3, 2, 7, 5, 2] [Op.split [0] none]).spike_clusters ∧
    8 < new_cluster_id (runOps [2, 5, 3, 2, 7, 5, 2] [Op.split [0] none]) :=
  ⟨by decide, C1_new_cluster_id_gt_present [2, 5, 3, 2, 7, 5, 2]
    [Op.split [0] none] 8 (by decide)⟩

/-- C2: in every reachable session state, if a single `merge`, `split` or
`assign` call succeeds, then `undo()` immediately afterwards restores the
spike-cluster label array to exactly its value before that call. -/
theorem C2_undo_restores (sc0 : List Nat) (ops : List Op) (m : MutOp)
    (c2 : Clustering) (info : UpdateInfo)
    (h : (runOps sc0 ops).applyMut m = .ok (c2, info)) :
    c2.undo.1.spike_clusters = (runOps sc0 ops).spike_clusters := by
  set c := runOps sc0 ops with hc
  have hInv := runOps_inv sc0 ops
  rw [← hc] at hInv
  have hshape : ∃ sids vals d, (c2, info) = pushAssign c sids vals d := by
    cases m with
    | merge ids t => exact merge_ok_shape h
    | split ids rel => exact split_ok_shape h
    | assign ids rel => exact assign_ok_shape h
  obtain ⟨sids, vals, d, hp⟩ := hshape
  have hc2 : c2 = (pushAssign c sids vals d).1 := by
    rw [← hp]
  obtain ⟨f1, f2, f3, f4⟩ := pushAssign_fields c sids vals d
  have hA : (c.undo_stack.take c.index).length = c.index := by
    rw [List.length_take]; exact Nat.min_eq_left hInv.1
  rw [hc2]
  unfold Clustering.undo
  rw [if_neg (by rw [f4]; exact Nat.succ_ne_zero _)]
  show replay (pushAssign c sids vals d).1.spike_clusters_base
      ((pushAssign c sids vals d).1.undo_stack.take
        ((pushAssign c sids vals d).1.index - 1)) = c.spike_clusters
  rw [f2, f3, f4, Nat.add_sub_cancel, List.take_left' hA, ← hInv.2]

/-- Witness for C2 at a concrete session: merging `[2, 3]` on the Scenario A
labels and undoing restores the initial array. -/
theorem C2_witness :
    (runOps [2, 5, 3, 2, 7, 5, 2] []).applyMut (MutOp.merge [2, 3] none) =
      .ok (⟨[8, 5, 8, 8, 7, 5, 8], [2, 5, 3, 2, 7, 5, 2],
            [([0, 2, 3, 6], [8, 8, 8, 8])], 1⟩,
           { description := "merge", spikes := [0, 2, 3, 6], added := [8],
             deleted := [2, 3], descendants := [(2, 8), (3, 8)],
             metadata_changed := [] }) ∧
    (Clustering.undo ⟨[8, 5, 8, 8, 7, 5, 8], [2, 5, 3, 2, 7, 5, 2],
        [([0, 2, 3, 6], [8, 8, 8, 8])], 1⟩).1.spike_clusters =
      (runOps [2, 5, 3, 2, 7, 5, 2] []).spike_clusters :=
  ⟨rfl,
   C2_undo_restores [2, 5, 3, 2, 7, 5, 2] [] (MutOp.merge [2, 3] none)
     ⟨[8, 5, 8, 8, 7, 5, 8], [2, 5, 3, 2, 7, 5, 2],
       [([0, 2, 3, 6], [8, 8, 8, 8])], 1⟩
     { description := "merge", spikes := [0, 2, 3, 6], added := [8],
       deleted := [2, 3], descendants := [(2, 8), (3, 8)],
       metadata_changed := [] }
     rfl⟩

/-- C4: `merge` fails with `InvalidOperation` whenever fewer than two
cluster ids are given, and — given at least two ids — fails with
`UnknownCluster` whenever some given id is not currently present in the
label array; in both failure cases the state is unmodified. -/
theorem C4_merge_validation (c : Clustering) (cluster_ids : List Nat)
    (toId : Option Nat) :
    (cluster_ids.length < 2 →
      c.merge cluster_ids toId = .error .invalidOperation ∧
      c.step (Op.merge cluster_ids toId) = c) ∧
    (2 ≤ cluster_ids.length →
      (∃ x ∈ cluster_ids, x ∉ c.spike_clusters) →
      c.merge cluster_ids toId = .error .unknownCluster ∧
      c.step (Op.merge cluster_ids toId) = c) := by
  constructor
  · intro h
    have hm : c.merge cluster_ids toId = .error .invalidOperation := by
      unfold Clustering.merge
      rw [if_pos h]
    exact ⟨hm, by simp [Clustering.step, hm]⟩
  · intro h1 h2
    have hany : cluster_ids.any
        (fun cl => !(decide (cl ∈ c.spike_clusters))) = true := by
      obtain ⟨x, hx, hnx⟩ := h2
      exact List.any_eq_true.mpr ⟨x, hx, by simp [hnx]⟩
    have hm : c.merge cluster_ids toId = .error .unknownCluster := by
      unfold Clustering.merge
      rw [if_neg (Nat.not_lt.mpr h1), if_pos hany]
    exact ⟨hm, by simp [Clustering.step, hm]⟩

/-- Witness for C4 at concrete calls: `merge([2])` is an `InvalidOperation`
and `merge([2, 8])` with 8 absent is an `UnknownCluster`; both leave the
state unchanged. -/
theorem C4_witness :
    ((Clustering.mk0 [2, 5, 3, 2, 7, 5, 2]).merge [2] none =
        .error .invalidOperation ∧
      (Clustering.mk0 [2, 5, 3, 2, 7, 5, 2]).step (Op.merge [2] none) =
        Clustering.mk0 [2, 5, 3, 2, 7, 5, 2]) ∧
    ((Clustering.mk0 [2, 5, 3, 2, 7, 5, 2]).merge [2, 8] none =
        .error .unknownCluster ∧
      (Clustering.mk0 [2, 5, 3, 2, 7, 5, 2]).step (Op.merge [2, 8] none) =
        Clustering.mk0 [2, 5, 3, 2, 7, 5, 2]) :=
  ⟨(C4_merge_validation (Clustering.mk0 [2, 5, 3, 2, 7, 5, 2]) [2] none).1
      (by decide),
   (C4_merge_validation (Clustering.mk0 [2, 5, 3, 2, 7, 5, 2]) [2, 8] none).2
      (by decide) ⟨8, by decide, by decide⟩⟩

/-- C7: for every `ClusterMetadata` table, `get` resolves per cluster to the
explicitly stored value if one exists, else to the registered default
function applied to the cluster, else to null; and in Scenario D (default
function returning 3), `set('group', [5], 1)` makes `get` return 1, and one
`undo()` makes it return 3 again. -/
theorem C7_metadata_resolution :
    (∀ (m : ClusterMetadata) (cluster : Nat) (field : String),
      m._get_one cluster field =
        (((m.data.lookup cluster).getD []).lookup field).orElse
          (fun _ => (m.fields.lookup field).map (fun f => f cluster))) ∧
    ((((ClusterMetadata.mk0 []).registerDefault "group" (fun _ => 3)).set
        [5] "group" 1).1._get_one 5 "group" = some 1) ∧
    (((((ClusterMetadata.mk0 []).registerDefault "group" (fun _ => 3)).set
        [5] "group" 1).1.undo.1._get_one 5 "group" = some 3)) := by
  refine ⟨?_, rfl, rfl⟩
  intro m cluster field
  unfold ClusterMetadata._get_one
  cases h1 : m.data.lookup cluster with
  | none =>
    cases h2 : m.fields.lookup field <;> simp [h2, Option.orElse]
  | some cdata =>
    cases h2 : cdata.lookup field with
    | none =>
      cases h3 : m.fields.lookup field <;> simp [h2, h3, Option.orElse]
    | some v => simp [h2, Option.orElse]

/-- Two sorted lists of distinct naturals are equal iff they have the same
members. -/
theorem sorted_clusters_eq_iff {k1 k2 : List Nat} (h1 : k1.Nodup) (h2 : k2.Nodup) :
    List.insertionSort (· ≤ ·) k1 = List.insertionSort (· ≤ ·) k2 ↔
      (∀ x, x ∈ k1 ↔ x ∈ k2) := by
  have p1 := List.perm_insertionSort (fun a b : Nat => a ≤ b) k1
  have p2 := List.perm_insertionSort (fun a b : Nat => a ≤ b) k2
  constructor
  · intro h x
    constructor
    · intro hx
      exact p2.mem_iff.mp (h ▸ p1.mem_iff.mpr hx)
    · intro hx
      exact p1.mem_iff.mp (h ▸ p2.mem_iff.mpr hx)
  · intro h
    have hp : k1.Perm k2 := (List.perm_ext_iff_of_nodup h1 h2).mpr h
    exact List.eq_of_perm_of_sorted (p1.trans (hp.trans p2.symm))
      (List.sorted_insertionSort _ k1) (List.sorted_insertionSort _ k2)

/-- C8: whenever the memory tier and the disk tier hold different
cluster-id sets, reading `Store.clusters` compares the two sorted id lists
and raises the fatal consistency error instead of repairing; when the sets
agree, the common sorted list is returned. -/
theorem C8_store_consistency (s : Store)
    (hm : (s.memory.ds.map Prod.fst).Nodup)
    (hd : (s.disk.files.map Prod.fst).Nodup) :
    ((¬ ∀ x, x ∈ s.memory.ds.map Prod.fst ↔ x ∈ s.disk.files.map Prod.fst) →
      s.clusters = .error "Cluster store inconsistency.") ∧
    ((∀ x, x ∈ s.memory.ds.map Prod.fst ↔ x ∈ s.disk.files.map Prod.fst) →
      s.memory.clusters = s.disk.clusters ∧
      s.clusters = .ok s.memory.clusters) := by
  have key := sorted_clusters_eq_iff hm hd
  constructor
  · intro hne
    have hne2 : s.memory.clusters ≠ s.disk.clusters :=
      fun heq => hne (key.mp heq)
    unfold Store.clusters
    rw [if_pos hne2]
  · intro hiff
    have heq : s.memory.clusters = s.disk.clusters := key.mpr hiff
    refine ⟨heq, ?_⟩
    unfold Store.clusters
    rw [if_neg (not_ne_iff.mpr heq)]

/-- Witness for C8: two tiers holding the same id set {1, 2} (in different
internal orders) agree on the sorted list `[1, 2]`; and a store whose tiers
differ raises the error. -/
theorem C8_witness :
    ((⟨⟨[(2, []), (1, [])]⟩, ⟨[(1, []), (2, [])]⟩, []⟩ : Store).clusters =
      .ok (MemoryStore.clusters ⟨[(2, []), (1, [])]⟩)) ∧
    MemoryStore.clusters ⟨[(2, []), (1, [])]⟩ = [1, 2] ∧
    ((⟨⟨[(2, [])]⟩, ⟨[(1, [])]⟩, []⟩ : Store).clusters =
      .error "Cluster store inconsistency.") :=
  ⟨((C8_store_consistency ⟨⟨[(2, []), (1, [])]⟩, ⟨[(1, []), (2, [])]⟩, []⟩
      (by decide) (by decide)).2 (by intro x; simp [or_comm])).2,
   by decide,
   (C8_store_consistency ⟨⟨[(2, [])]⟩, ⟨[(1, [])]⟩, []⟩
      (by decide) (by decide)).1
     (by intro h; have := (h 2).mp (by simp); simp at this)⟩

theorem lookup_filter_not_mem {c : Nat} {cs : List Nat}
    (hc : c ∉ cs) :
    ∀ {l : List (Nat × List (String × Nat))},
      (l.filter (fun p => decide (p.1 ∉ cs))).lookup c = l.lookup c := by
  intro l
  induction l with
  | nil => rfl
  | cons p t ih =>
    obtain ⟨k, v⟩ := p
    rw [List.filter_cons]
    by_cases hp : k ∈ cs
    · rw [if_neg (by simp [hp]), ih]
      have hck : (c == k) = false :=
        beq_eq_false_iff_ne.mpr (fun e => hc (by rw [e]; exact hp))
      show _ = List.lookup c ((k, v) :: t)
      simp [List.lookup, hck]
    · rw [if_pos (by simp [hp])]
      show List.lookup c ((k, v) :: _) = List.lookup c ((k, v) :: t)
      cases hck : c == k with
      | true => simp only [List.lookup, hck]
      | false =>
        simp only [List.lookup, hck]
        exact ih

/-- C9: `delete` on `MemoryStore`, `DiskStore` and `Store` is total and
idempotent: absent ids are skipped (deleting a list equals deleting only
its present ids), data stored for clusters not in the list is unchanged,
and deleting twice with the same list equals deleting once. -/
theorem C9_delete_idempotent (ms : MemoryStore) (dsk : DiskStore) (st : Store)
    (l : List Nat) (c : Nat) (hc : c ∉ l) :
    ((ms.delete l).delete l = ms.delete l ∧
     (dsk.delete l).delete l = dsk.delete l ∧
     (st.delete l).delete l = st.delete l) ∧
    ((ms.delete l).load c = ms.load c ∧
     (dsk.delete l).load c = dsk.load c ∧
     (st.delete l).load c = st.load c) ∧
    (ms.delete l = ms.delete (l.filter (fun x => decide (x ∈ ms.ds.map Prod.fst))) ∧
     dsk.delete l = dsk.delete (l.filter (fun x => decide (x ∈ dsk.files.map Prod.fst)))) := by
  have idem : ∀ (d : List (Nat × List (String × Nat))),
      (d.filter (fun p => decide (p.1 ∉ l))).filter (fun p => decide (p.1 ∉ l)) =
      d.filter (fun p => decide (p.1 ∉ l)) := by
    intro d
    rw [List.filter_filter]
    exact List.filter_congr (fun a _ => Bool.and_self _)
  have skip : ∀ (d : List (Nat × List (String × Nat))),
      d.filter (fun p => decide (p.1 ∉ l)) =
      d.filter (fun p => decide (p.1 ∉ l.filter (fun x => decide (x ∈ d.map Prod.fst)))) := by
    intro d
    refine List.filter_congr (fun p hp => ?_)
    have hmem : p.1 ∈ d.map Prod.fst := List.mem_map.mpr ⟨p, hp, rfl⟩
    apply decide_eq_decide.mpr
    constructor
    · intro h h2
      exact h (List.mem_filter.mp h2).1
    · intro h h2
      exact h (List.mem_filter.mpr ⟨h2, by simp [hmem]⟩)
  refine ⟨⟨?_, ?_, ?_⟩, ⟨?_, ?_, ?_⟩, ?_, ?_⟩
  · simp only [MemoryStore.delete]
    rw [idem]
  · simp only [DiskStore.delete]
    rw [idem]
  · simp only [Store.delete, MemoryStore.delete, DiskStore.delete]
    rw [idem, idem]
  · simp only [MemoryStore.delete, MemoryStore.load]
    rw [lookup_filter_not_mem hc]
  · simp only [DiskStore.delete, DiskStore.load]
    rw [lookup_filter_not_mem hc]
  · simp only [Store.delete, Store.load, MemoryStore.delete, MemoryStore.load,
      DiskStore.delete, DiskStore.load]
    rw [lookup_filter_not_mem hc, lookup_filter_not_mem hc]
  · simp only [MemoryStore.delete]
    rw [← skip]
  · simp only [DiskStore.delete]
    rw [← skip]

/-- Witness for C9 at a concrete store state. -/
theorem C9_witness :
    (MemoryStore.delete (MemoryStore.delete ⟨[(1, [("a", 7)]), (2, [])]⟩ [2, 9]) [2, 9] =
      MemoryStore.delete ⟨[(1, [("a", 7)]), (2, [])]⟩ [2, 9]) ∧
    (MemoryStore.load (MemoryStore.delete ⟨[(1, [("a", 7)]), (2, [])]⟩ [2, 9]) 1 =
      MemoryStore.load ⟨[(1, [("a", 7)]), (2, [])]⟩ 1) :=
  ⟨((C9_delete_idempotent ⟨[(1, [("a", 7)]), (2, [])]⟩ ⟨[]⟩ ⟨⟨[]⟩, ⟨[]⟩, []⟩
      [2, 9] 1 (by decide)).1).1,
   ((C9_delete_idempotent ⟨[(1, [("a", 7)]), (2, [])]⟩ ⟨[]⟩ ⟨⟨[]⟩, ⟨[]⟩, []⟩
      [2, 9] 1 (by decide)).2).1.1⟩

theorem lookup_setField_ne {k f : String} (h : f ≠ k) (v : Nat) :
    ∀ {d : List (String × Nat)}, (setField d k v).lookup f = d.lookup f := by
  have hfk : (f == k) = false := beq_eq_false_iff_ne.mpr h
  intro d
  induction d with
  | nil => simp [setField, List.lookup, hfk]
  | cons p t ih =>
    obtain ⟨k1, v1⟩ := p
    by_cases hk : k1 = k
    · subst hk
      simp only [setField, if_pos rfl]
      simp [List.lookup, hfk]
    · simp only [setField, if_neg hk]
      cases hf1 : f == k1 with
      | true => simp [List.lookup, hf1]
      | false =>
        simp only [List.lookup, hf1]
        exact ih

theorem lookup_foldl_setField {f : String} :
    ∀ {data : List (String × Nat)}, f ∉ data.map Prod.fst →
      ∀ (d : List (String × Nat)),
        (data.foldl (fun dd p => setField dd p.1 p.2) d).lookup f = d.lookup f := by
  intro data
  induction data with
  | nil => intro _ d; rfl
  | cons p t ih =>
    intro hf d
    simp only [List.map_cons, List.mem_cons, not_or] at hf
    rw [List.foldl_cons, ih hf.2, lookup_setField_ne hf.1 _]

theorem lookup_updateCluster_self (c : Nat) (data : List (String × Nat)) :
    ∀ (l : List (Nat × List (String × Nat))),
      (updateCluster l c data).lookup c =
        some (data.foldl (fun dd p => setField dd p.1 p.2) ((l.lookup c).getD [])) := by
  intro l
  induction l with
  | nil => simp [updateCluster, List.lookup]
  | cons p t ih =>
    obtain ⟨c1, d⟩ := p
    by_cases hc1 : c1 = c
    · subst hc1
      simp [updateCluster, List.lookup]
    · have hne : (c == c1) = false := beq_eq_false_iff_ne.mpr (fun e => hc1 e.symm)
      simp only [updateCluster, if_neg hc1]
      simp only [List.lookup, hne]
      exact ih

theorem lookup_append_of_none {f : String} {b : List (String × Nat)} :
    ∀ {a : List (String × Nat)}, a.lookup f = none →
      (a ++ b).lookup f = b.lookup f := by
  intro a
  induction a with
  | nil => intro _; rfl
  | cons p t ih =>
    obtain ⟨k, v⟩ := p
    intro h
    cases hk : f == k with
    | true => simp [List.lookup, hk] at h
    | false =>
      simp only [List.lookup, hk] at h
      simp only [List.cons_append, List.lookup, hk]
      exact ih h

/-- C10: when `Store.store` is called without a location argument, a data
field that was never registered via `register_field` is written to neither
tier (the stored value for that field in either tier's dict for the
cluster is unchanged), and a subsequent `load` of the cluster does not
return it (if neither tier already held a value for it, the loaded dict
still has none). -/
theorem C10_unregistered_discarded (s : Store) (cluster : Nat)
    (data : List (String × Nat)) (f : String)
    (hf : s.dispatch.lookup f = none) :
    (((s.store cluster none data).memory.load cluster).lookup f =
      (s.memory.load cluster).lookup f) ∧
    (((s.store cluster none data).disk.load cluster).lookup f =
      (s.disk.load cluster).lookup f) ∧
    ((s.memory.load cluster).lookup f = none →
      (s.disk.load cluster).lookup f = none →
      ((s.store cluster none data).load cluster).lookup f = none) := by
  have hnotin : ∀ loc : Loc,
      f ∉ (data.filter (fun p => decide (s.dispatch.lookup p.1 = some loc))).map
        Prod.fst := by
    intro loc hmem
    simp only [List.mem_map, List.mem_filter, decide_eq_true_eq] at hmem
    obtain ⟨p, ⟨_, hp2⟩, hp3⟩ := hmem
    rw [hp3, hf] at hp2
    cases hp2
  have hmem1 : (s.store cluster none data).memory.load cluster =
      (data.filter (fun p => decide (s.dispatch.lookup p.1 = some Loc.memory))).foldl
        (fun dd p => setField dd p.1 p.2) (s.memory.load cluster) := by
    simp only [Store.store, MemoryStore.store, MemoryStore.load]
    rw [lookup_updateCluster_self]
    rfl
  have hdisk1 : (s.store cluster none data).disk.load cluster =
      (data.filter (fun p => decide (s.dispatch.lookup p.1 = some Loc.disk))).foldl
        (fun dd p => setField dd p.1 p.2) (s.disk.load cluster) := by
    simp only [Store.store, DiskStore.store, DiskStore.load]
    rw [lookup_updateCluster_self]
    rfl
  have hmemload : ((s.store cluster none data).memory.load cluster).lookup f =
      (s.memory.load cluster).lookup f := by
    rw [hmem1, lookup_foldl_setField (hnotin Loc.memory)]
  have hdiskload : ((s.store cluster none data).disk.load cluster).lookup f =
      (s.disk.load cluster).lookup f := by
    rw [hdisk1, lookup_foldl_setField (hnotin Loc.disk)]
  refine ⟨hmemload, hdiskload, ?_⟩
  intro h1 h2
  show ((s.store cluster none data).memory.load cluster ++
    (s.store cluster none data).disk.load cluster).lookup f = none
  rw [lookup_append_of_none (hmemload.trans h1), hdiskload.trans h2]

/-- Witness for C10: storing an unregistered field `b` alongside a
registered memory field `a` discards `b`: the subsequent load returns no
value for `b`. -/
theorem C10_witness :
    ((Store.store ⟨⟨[]⟩, ⟨[]⟩, [("a", Loc.memory)]⟩ 3 none [("a", 7), ("b", 9)]).load 3).lookup "b" = none :=
  (C10_unregistered_discarded ⟨⟨[]⟩, ⟨[]⟩, [("a", Loc.memory)]⟩ 3
    [("a", 7), ("b", 9)] "b" rfl).2.2 rfl rfl

theorem find?_eq_some_of_unique {α : Type} (p : α → Bool) :
    ∀ {l : List α} {x : α}, x ∈ l → p x = true →
      (∀ y ∈ l, p y = true → y = x) → l.find? p = some x := by
  intro l
  induction l with
  | nil => intro x hx; cases hx
  | cons a t ih =>
    intro x hx hp huniq
    cases hpa : p a with
    | true =>
      rw [List.find?_cons_of_pos _ hpa]
      rw [huniq a (List.mem_cons_self _ _) hpa]
    | false =>
      rw [List.find?_cons_of_neg _ (by simp [hpa])]
      rcases List.mem_cons.mp hx with rfl | hxt
      · rw [hpa] at hp; cases hp
      · exact ih hxt hp (fun y hy hpy => huniq y (List.mem_cons_of_mem _ hy) hpy)

theorem mem_group_iff {sc : List Nat} {cl i : Nat} :
    i ∈ (List.range sc.length).filter (fun j => decide (sc.getD j 0 = cl)) ↔
      i < sc.length ∧ sc.getD i 0 = cl := by
  simp [List.mem_filter, List.mem_range]

/-- For every label array, every spike index belongs to exactly one
cluster's spike list of the derived `spikes_per_cluster` mapping. -/
theorem spikes_per_cluster_countP (sc : List Nat) (i : Nat) (hi : i < sc.length) :
    (spikes_per_cluster sc).countP (fun p => decide (i ∈ p.2)) = 1 := by
  unfold spikes_per_cluster
  rw [List.countP_map]
  have hmem : sc.getD i 0 ∈ _unique sc := by
    rw [List.getD_eq_getElem _ _ hi]
    exact mem_unique.mpr (List.getElem_mem hi)
  have hcongr : ∀ cl ∈ _unique sc,
      ((fun p : Nat × List Nat => decide (i ∈ p.2)) ∘
        (fun cl => (cl, (List.range sc.length).filter
          (fun j => decide (sc.getD j 0 = cl))))) cl = true ↔
      (cl == sc.getD i 0) = true := by
    intro cl _
    simp only [Function.comp, decide_eq_true_eq, beq_iff_eq]
    rw [mem_group_iff]
    constructor
    · intro h
      exact h.2.symm
    · intro h
      exact ⟨hi, h.symm⟩
  rw [List.countP_congr hcongr, ← List.count_eq_countP]
  exact List.count_eq_one_of_mem (unique_nodup sc) hmem

/-- For every label array, flattening the derived `spikes_per_cluster`
mapping reproduces the label array. -/
theorem flatten_spikes_per_cluster_eq (sc : List Nat) :
    _flatten_spikes_per_cluster sc.length (spikes_per_cluster sc) = sc := by
  unfold _flatten_spikes_per_cluster
  refine List.ext_getElem (by simp) ?_
  intro n h1 h2
  have hn : n < sc.length := by simpa using h1
  rw [List.getElem_map, List.getElem_range]
  have hfind : (spikes_per_cluster sc).find? (fun p => p.2.contains n) =
      some (sc.getD n 0, (List.range sc.length).filter
        (fun j => decide (sc.getD j 0 = sc.getD n 0))) := by
    apply find?_eq_some_of_unique
    · exact List.mem_map_of_mem _ (by
        rw [List.getD_eq_getElem _ _ hn]
        exact mem_unique.mpr (List.getElem_mem hn))
    · simp only [List.contains, List.elem_iff]
      exact mem_group_iff.mpr ⟨hn, rfl⟩
    · intro y hy hpy
      unfold spikes_per_cluster at hy
      obtain ⟨cl, hcl, rfl⟩ := List.mem_map.mp hy
      simp only [List.contains, List.elem_iff] at hpy
      have h2 := (mem_group_iff.mp hpy).2
      rw [h2]
  rw [hfind]
  exact List.getD_eq_getElem sc 0 hn

/-- C5: in every reachable session state, the derived `spikes_per_cluster`
mapping is an exact partition of the spike-index range: the array length is
the session's fixed spike count, every spike index appears in exactly one
cluster's spike list, and flattening the mapping reproduces the label
array. -/
theorem C5_partition (sc0 : List Nat) (ops : List Op) :
    (runOps sc0 ops).spike_clusters.length = sc0.length ∧
    (∀ i, i < sc0.length →
      (spikes_per_cluster (runOps sc0 ops).spike_clusters).countP
        (fun p => decide (i ∈ p.2)) = 1) ∧
    _flatten_spikes_per_cluster (runOps sc0 ops).spike_clusters.length
      (spikes_per_cluster (runOps sc0 ops).spike_clusters) =
      (runOps sc0 ops).spike_clusters := by
  refine ⟨runOps_length sc0 ops, ?_, flatten_spikes_per_cluster_eq _⟩
  intro i hi
  exact spikes_per_cluster_countP _ i (by rw [runOps_length]; exact hi)

/-- Witness for C5 at a concrete session (Scenario B's split). -/
theorem C5_witness :
    (runOps [2, 5, 3, 2, 7, 5, 2] [Op.split [0] none]).spike_clusters.length = 7 ∧
    (spikes_per_cluster
      (runOps [2, 5, 3, 2, 7, 5, 2] [Op.split [0] none]).spike_clusters).countP
        (fun p => decide (3 ∈ p.2)) = 1 :=
  ⟨(C5_partition [2, 5, 3, 2, 7, 5, 2] [Op.split [0] none]).1,
   (C5_partition [2, 5, 3, 2, 7, 5, 2] [Op.split [0] none]).2.1 3 (by decide)⟩

/-! ### Anatomy of `_extend_assignement`

Named forms of the intermediate values of `_extend_assignement`, used to
state and prove the label formulas of the split/assign claims. -/

/-- The absolute new ids for the named spikes: each relative value's rank
among the distinct relative values, shifted by `max(spike_clusters) + 1`. -/
def eaNew (sc r : List Nat) : List Nat :=
  (_index_of r (_unique r)).map (fun x => x + (maxval sc + 1))

/-- The first id past the block allocated to the named spikes. -/
def eaK (sc r : List Nat) : Nat := maxval (eaNew sc r) + 1

/-- The old labels of the extended (remainder) spikes. -/
def eaExtOld (s sc : List Nat) : List Nat :=
  (_extend_spikes s sc).map (fun i => sc.getD i 0)

/-- The absolute new ids for the extended spikes, grouped by old cluster. -/
def eaExtNew (s sc r : List Nat) : List Nat :=
  (_index_of (eaExtOld s sc) (_unique (eaExtOld s sc))).map (fun x => x + eaK sc r)

/-- The assignment of `_extend_assignement` as spike-id/new-label pairs,
before the final sort by spike id. -/
def eaPairs (s sc r : List Nat) : List (Nat × Nat) :=
  s.zip (eaNew sc r) ++ (_extend_spikes s sc).zip (eaExtNew s sc r)

theorem extend_assignement_eq (s sc r : List Nat) :
    _extend_assignement s sc r =
      if (_extend_spikes s sc).isEmpty then (s, eaNew sc r)
      else _concatenate_spike_clusters (s, eaNew sc r)
        (_extend_spikes s sc, eaExtNew s sc r) := rfl

theorem zip_map_fst_snd {α β : Type} :
    ∀ (l : List (α × β)), (l.map Prod.fst).zip (l.map Prod.snd) = l := by
  intro l
  induction l with
  | nil => rfl
  | cons p t ih => simp [ih]

/-- The sorted pair list written by `_extend_assignement` is a permutation
of `eaPairs`. -/
theorem extend_assignement_zip_perm (s sc r : List Nat) :
    ((_extend_assignement s sc r).1.zip (_extend_assignement s sc r).2).Perm
      (eaPairs s sc r) := by
  rw [extend_assignement_eq]
  split
  · next h =>
    unfold eaPairs
    rw [List.isEmpty_iff.mp h]
    simp
  · unfold _concatenate_spike_clusters
    rw [zip_map_fst_snd]
    exact List.perm_insertionSort _ _

theorem length_index_of (l ref : List Nat) : (_index_of l ref).length = l.length := by
  simp [_index_of]

theorem length_eaNew (sc r : List Nat) : (eaNew sc r).length = r.length := by
  simp [eaNew, length_index_of]

theorem length_eaExtNew (s sc r : List Nat) :
    (eaExtNew s sc r).length = (_extend_spikes s sc).length := by
  simp [eaExtNew, eaExtOld, length_index_of]

theorem nodup_extend_spikes (s sc : List Nat) : (_extend_spikes s sc).Nodup :=
  List.Nodup.filter _ (List.Nodup.filter _ (List.nodup_range _))

theorem mem_extend_spikes {s sc : List Nat} {j : Nat} :
    j ∈ _extend_spikes s sc ↔
      j < sc.length ∧ sc.getD j 0 ∈ s.map (fun i => sc.getD i 0) ∧ j ∉ s := by
  unfold _extend_spikes _spikes_in_clusters
  simp only [List.mem_filter, List.mem_range, decide_eq_true_eq]
  rw [mem_unique]
  tauto

theorem ea_keys_eq (s sc r : List Nat) (hrlen : r.length = s.length) :
    (eaPairs s sc r).map Prod.fst = s ++ _extend_spikes s sc := by
  unfold eaPairs
  rw [List.map_append, List.map_fst_zip, List.map_fst_zip]
  · rw [length_eaExtNew]
  · rw [length_eaNew, hrlen]

theorem ea_keys_nodup (s sc r : List Nat) (hrlen : r.length = s.length)
    (hnodup : s.Nodup) : ((eaPairs s sc r).map Prod.fst).Nodup := by
  rw [ea_keys_eq s sc r hrlen]
  refine List.Nodup.append hnodup (nodup_extend_spikes s sc) ?_
  intro a ha hext
  exact (mem_extend_spikes.mp hext).2.2 ha

/-- Value of the final label array at a spike covered by `eaPairs`. -/
theorem assign_out_mem (s sc r : List Nat) (hrlen : r.length = s.length)
    (hnodup : s.Nodup) {j v : Nat} (hj : j < sc.length)
    (hmem : (j, v) ∈ eaPairs s sc r) :
    (writeAllPairs sc
      ((_extend_assignement s sc r).1.zip (_extend_assignement s sc r).2)).getD j 0 = v := by
  have hperm := extend_assignement_zip_perm s sc r
  apply writeAllPairs_getD_mem
  · exact ((hperm.map Prod.fst).nodup_iff).mpr (ea_keys_nodup s sc r hrlen hnodup)
  · exact hperm.mem_iff.mpr hmem
  · exact hj

/-- The final label array is unchanged at spikes not named and not in any
affected cluster. -/
theorem assign_out_not_mem (s sc r : List Nat) {j : Nat}
    (hj1 : j ∉ s) (hj2 : j ∉ _extend_spikes s sc) :
    (writeAllPairs sc
      ((_extend_assignement s sc r).1.zip (_extend_assignement s sc r).2)).getD j 0 =
      sc.getD j 0 := by
  apply writeAllPairs_getD_not_mem
  intro hmem
  obtain ⟨pr, hpr, hfst⟩ := List.mem_map.mp hmem
  have hpr2 := (extend_assignement_zip_perm s sc r).mem_iff.mp hpr
  rcases List.mem_append.mp hpr2 with h | h
  · obtain ⟨h1, _⟩ := List.of_mem_zip (show (pr.1, pr.2) ∈ _ from h)
    rw [hfst] at h1
    exact hj1 h1
  · obtain ⟨h1, _⟩ := List.of_mem_zip (show (pr.1, pr.2) ∈ _ from h)
    rw [hfst] at h1
    exact hj2 h1

/-- The pair written for the `p`-th named spike: its new label is the rank
of its relative value plus `new_cluster_id`. -/
theorem mem_eaPairs_of_s (s sc r : List Nat) (hrlen : r.length = s.length)
    {p : Nat} (hp : p < s.length) :
    (s.getD p 0, (_unique r).indexOf (r.getD p 0) + (maxval sc + 1)) ∈
      eaPairs s sc r := by
  have hpn : p < (eaNew sc r).length := by rw [length_eaNew, hrlen]; exact hp
  have hpz : p < (s.zip (eaNew sc r)).length := by
    rw [List.length_zip]
    exact lt_min hp hpn
  apply List.mem_append_left
  have hz : (s.zip (eaNew sc r))[p] = (s[p], (eaNew sc r)[p]) := List.getElem_zip
  have hv : (eaNew sc r)[p] = (_unique r).indexOf (r.getD p 0) + (maxval sc + 1) := by
    unfold eaNew _index_of
    rw [List.getElem_map, List.getElem_map]
    rw [List.getD_eq_getElem _ _ (by rw [hrlen]; exact hp)]
  have hs : s[p] = s.getD p 0 := (List.getD_eq_getElem _ _ hp).symm
  rw [← hs, ← hv]
  rw [← hz]
  exact List.getElem_mem hpz

/-- The pair written for an extended (remainder) spike: its new label is
the rank of its old cluster among the affected old clusters plus `eaK`. -/
theorem mem_eaPairs_of_ext (s sc r : List Nat) {j : Nat}
    (hj : j ∈ _extend_spikes s sc) :
    (j, (_unique (eaExtOld s sc)).indexOf (sc.getD j 0) + eaK sc r) ∈
      eaPairs s sc r := by
  obtain ⟨q, hq, hjq⟩ := List.getElem_of_mem hj
  have hqn : q < (eaExtNew s sc r).length := by rw [length_eaExtNew]; exact hq
  have hqz : q < ((_extend_spikes s sc).zip (eaExtNew s sc r)).length := by
    rw [List.length_zip]
    exact lt_min hq hqn
  apply List.mem_append_right
  have hz : ((_extend_spikes s sc).zip (eaExtNew s sc r))[q] =
      ((_extend_spikes s sc)[q], (eaExtNew s sc r)[q]) := List.getElem_zip
  have hqo : q < (eaExtOld s sc).length := by
    rw [eaExtOld, List.length_map]
    exact hq
  have hov : (eaExtOld s sc)[q] = sc.getD j 0 := by
    unfold eaExtOld
    rw [List.getElem_map, hjq]
  have hv : (eaExtNew s sc r)[q] =
      (_unique (eaExtOld s sc)).indexOf (sc.getD j 0) + eaK sc r := by
    unfold eaExtNew _index_of
    rw [List.getElem_map, List.getElem_map, hov]
  rw [← hv, ← hjq]
  rw [← hz]
  exact List.getElem_mem hqz

theorem assign_ok_valid {c : Clustering} {s : List Nat} {rel : Option (List Nat)}
    {r : Clustering × UpdateInfo} (h : c.assign s rel = .ok r) :
    ∀ i ∈ s, i < c.spike_clusters.length := by
  intro i hi
  by_contra hc
  unfold Clustering.assign at h
  rw [if_pos (List.any_eq_true.mpr ⟨i, hi, by simpa using hc⟩)] at h
  cases h

theorem assign_ok_spike_clusters {c : Clustering} {s : List Nat}
    {rel : Option (List Nat)} {r : Clustering × UpdateInfo}
    (h : c.assign s rel = .ok r) :
    r.1.spike_clusters = writeAllPairs c.spike_clusters
      ((_extend_assignement s c.spike_clusters
          (rel.getD (List.replicate s.length 0))).1.zip
        (_extend_assignement s c.spike_clusters
          (rel.getD (List.replicate s.length 0))).2) := by
  unfold Clustering.assign at h
  split_ifs at h
  all_goals (cases h; try rfl)

/-- C3: on labels `[2,5,3,2,7,5,2]`, `split([0])` relabels spike 0 to the
new id 8, relabels the whole remainder of cluster 2 (spikes 3 and 6) to the
second new id 9, reporting `deleted=[2]`, `added=[8,9]`,
`descendants=[(2,8),(2,9)]` and resulting labels `[8,5,3,9,7,5,9]`; and in
general, for every successful split, any source cluster that loses at
least one spike has its entire remaining membership moved to one freshly
minted id (strictly greater than every id currently present). -/
theorem C3_split_remainder :
    ((Clustering.mk0 [2, 5, 3, 2, 7, 5, 2]).split [0] none =
      .ok (⟨[8, 5, 3, 9, 7, 5, 9], [2, 5, 3, 2, 7, 5, 2],
            [([0, 3, 6], [8, 9, 9])], 1⟩,
        { description := "assign", spikes := [0, 3, 6], added := [8, 9],
          deleted := [2], descendants := [(2, 8), (2, 9)],
          metadata_changed := [] })) ∧
    (∀ (c : Clustering) (s : List Nat) (cl : Nat) (c2 : Clustering)
        (info : UpdateInfo),
      s.Nodup →
      c.split s none = .ok (c2, info) →
      (∃ j0 ∈ s, c.spike_clusters.getD j0 0 = cl) →
      ∃ newid, new_cluster_id c ≤ newid ∧
        (∀ x ∈ c.spike_clusters, x < newid) ∧
        ∀ j, j < c.spike_clusters.length → j ∉ s →
          c.spike_clusters.getD j 0 = cl →
          c2.spike_clusters.getD j 0 = newid) := by
  refine ⟨rfl, ?_⟩
  intro c s cl c2 info hnodup h hj0
  obtain ⟨j0, hj0s, hj0c⟩ := hj0
  have hvalid := assign_ok_valid h
  have hsc := assign_ok_spike_clusters h
  set sc := c.spike_clusters with hscdef
  set r : List Nat := List.replicate s.length 0 with hrdef
  have hrlen : r.length = s.length := List.length_replicate _ _
  have hslen : 0 < s.length := List.length_pos.mpr (List.ne_nil_of_mem hj0s)
  have hklen : 0 < (eaNew sc r).length := by
    rw [length_eaNew, hrlen]
    exact hslen
  have hk : maxval sc + 1 + 1 ≤ eaK sc r := by
    have h0 : (eaNew sc r)[0] ∈ eaNew sc r := List.getElem_mem hklen
    have h0v : maxval sc + 1 ≤ (eaNew sc r)[0] := by
      unfold eaNew _index_of
      rw [List.getElem_map, List.getElem_map]
      exact Nat.le_add_left _ _
    exact Nat.succ_le_succ (Nat.le_trans h0v (le_maxval h0))
  refine ⟨(_unique (eaExtOld s sc)).indexOf cl + eaK sc r, ?_, ?_, ?_⟩
  · exact Nat.le_trans (Nat.le_trans (Nat.le_succ _) hk) (Nat.le_add_left _ _)
  · intro x hx
    have h1 : x ≤ maxval sc := le_maxval hx
    have h2 : maxval sc + 1 + 1 ≤ (_unique (eaExtOld s sc)).indexOf cl + eaK sc r :=
      Nat.le_trans hk (Nat.le_add_left _ _)
    omega
  · intro j hjlt hjs hjc
    have hjext : j ∈ _extend_spikes s sc := by
      rw [mem_extend_spikes]
      refine ⟨hjlt, ?_, hjs⟩
      rw [hjc, ← hj0c]
      exact List.mem_map_of_mem _ hj0s
    have hpair := mem_eaPairs_of_ext s sc r hjext
    rw [hjc] at hpair
    rw [hsc]
    exact assign_out_mem s sc r hrlen hnodup hjlt hpair

/-- Witness for C3's general part at the Scenario B split: the two
remainder spikes of cluster 2 (spikes 3 and 6) carry one common fresh id,
at least `new_cluster_id() = 8`. -/
theorem C3_witness :
    (⟨[8, 5, 3, 9, 7, 5, 9], [2, 5, 3, 2, 7, 5, 2], [([0, 3, 6], [8, 9, 9])], 1⟩
        : Clustering).spike_clusters.getD 3 0 =
      (⟨[8, 5, 3, 9, 7, 5, 9], [2, 5, 3, 2, 7, 5, 2], [([0, 3, 6], [8, 9, 9])], 1⟩
        : Clustering).spike_clusters.getD 6 0 ∧
    8 ≤ (⟨[8, 5, 3, 9, 7, 5, 9], [2, 5, 3, 2, 7, 5, 2], [([0, 3, 6], [8, 9, 9])], 1⟩
        : Clustering).spike_clusters.getD 3 0 := by
  obtain ⟨newid, hn1, hn2, hn3⟩ :=
    C3_split_remainder.2 (Clustering.mk0 [2, 5, 3, 2, 7, 5, 2]) [0] 2
      ⟨[8, 5, 3, 9, 7, 5, 9], [2, 5, 3, 2, 7, 5, 2], [([0, 3, 6], [8, 9, 9])], 1⟩
      { description := "assign", spikes := [0, 3, 6], added := [8, 9],
        deleted := [2], descendants := [(2, 8), (2, 9)], metadata_changed := [] }
      (by decide) rfl ⟨0, by decide, by decide⟩
  have h3 := hn3 3 (by decide) (by decide) (by decide)
  have h6 := hn3 6 (by decide) (by decide) (by decide)
  exact ⟨h3.trans h6.symm, by rw [h3]; exact hn1⟩

/-! ### Rank characterization of the relative-id mapping (claim C6) -/

theorem indexOf_sorted_strict :
    ∀ {l : List Nat}, l.Pairwise (· < ·) → ∀ {x : Nat}, x ∈ l →
      l.indexOf x = (l.filter (fun y => decide (y < x))).length := by
  intro l
  induction l with
  | nil => intro _ x hx; cases hx
  | cons a t ih =>
    intro hp x hx
    have ha := List.pairwise_cons.mp hp
    rcases List.mem_cons.mp hx with rfl | hxt
    · rw [List.indexOf_cons_self, List.filter_cons, if_neg (by simp)]
      symm
      rw [List.length_eq_zero, List.filter_eq_nil_iff]
      intro y hy
      simp only [decide_eq_true_eq]
      exact Nat.not_lt.mpr (Nat.le_of_lt (ha.1 y hy))
    · have hax : a < x := ha.1 x hxt
      rw [List.indexOf_cons_ne _ (Nat.ne_of_lt hax), List.filter_cons,
        if_pos (by simpa using hax), List.length_cons, ih ha.2 hxt]

theorem length_filter_unique (r : List Nat) (x : Nat) :
    ((_unique r).filter (fun y => decide (y < x))).length =
      (r.toFinset.filter (fun y => y < x)).card := by
  rw [← List.toFinset_card_of_nodup (List.Nodup.filter _ (unique_nodup r))]
  congr 1
  ext y
  simp [List.mem_toFinset, List.mem_filter, mem_unique, Finset.mem_filter]

theorem card_below_eq {r1 r2 : List Nat} (hlen : r1.length = r2.length)
    (hiso : ∀ p q, p < r1.length → q < r1.length →
      (r1.getD p 0 ≤ r1.getD q 0 ↔ r2.getD p 0 ≤ r2.getD q 0))
    {p : Nat} (hp : p < r1.length) :
    (r1.toFinset.filter (fun y => y < r1.getD p 0)).card =
      (r2.toFinset.filter (fun y => y < r2.getD p 0)).card := by
  have hlt : ∀ a b, a < r1.length → b < r1.length →
      (r1.getD a 0 < r1.getD b 0 ↔ r2.getD a 0 < r2.getD b 0) := by
    intro a b ha hb
    rw [lt_iff_le_not_le, lt_iff_le_not_le, hiso a b ha hb, hiso b a hb ha]
  have heqv : ∀ a b, a < r1.length → b < r1.length →
      (r1.getD a 0 = r1.getD b 0 ↔ r2.getD a 0 = r2.getD b 0) := by
    intro a b ha hb
    rw [le_antisymm_iff, le_antisymm_iff, hiso a b ha hb, hiso b a hb ha]
  apply Finset.card_bij (fun v _ => r2.getD (r1.indexOf v) 0)
  · intro v hv
    rw [Finset.mem_filter, List.mem_toFinset] at hv
    obtain ⟨hv1, hv2⟩ := hv
    have hidx : r1.indexOf v < r1.length := List.indexOf_lt_length.mpr hv1
    have hval : r1.getD (r1.indexOf v) 0 = v := by
      rw [List.getD_eq_getElem _ _ hidx]
      exact List.getElem_indexOf hidx
    rw [Finset.mem_filter, List.mem_toFinset]
    constructor
    · rw [List.getD_eq_getElem _ _ (hlen ▸ hidx)]
      exact List.getElem_mem _
    · refine (hlt _ _ hidx hp).mp ?_
      rw [hval]
      exact hv2
  · intro v1 hv1 v2 hv2 heq
    rw [Finset.mem_filter, List.mem_toFinset] at hv1 hv2
    have hi1 : r1.indexOf v1 < r1.length := List.indexOf_lt_length.mpr hv1.1
    have hi2 : r1.indexOf v2 < r1.length := List.indexOf_lt_length.mpr hv2.1
    have hval1 : r1.getD (r1.indexOf v1) 0 = v1 := by
      rw [List.getD_eq_getElem _ _ hi1]
      exact List.getElem_indexOf hi1
    have hval2 : r1.getD (r1.indexOf v2) 0 = v2 := by
      rw [List.getD_eq_getElem _ _ hi2]
      exact List.getElem_indexOf hi2
    rw [← hval1, ← hval2]
    exact (heqv _ _ hi1 hi2).mpr heq
  · intro w hw
    rw [Finset.mem_filter, List.mem_toFinset] at hw
    obtain ⟨hw1, hw2⟩ := hw
    have hidx2 : r2.indexOf w < r2.length := List.indexOf_lt_length.mpr hw1
    have hb1 : r2.indexOf w < r1.length := by rw [hlen]; exact hidx2
    have hwval : r2.getD (r2.indexOf w) 0 = w := by
      rw [List.getD_eq_getElem _ _ hidx2]
      exact List.getElem_indexOf hidx2
    have hmem : r1.getD (r2.indexOf w) 0 ∈ r1 := by
      rw [List.getD_eq_getElem _ _ hb1]
      exact List.getElem_mem _
    refine ⟨r1.getD (r2.indexOf w) 0, ?_, ?_⟩
    · rw [Finset.mem_filter, List.mem_toFinset]
      refine ⟨hmem, ?_⟩
      refine (hlt _ _ hb1 hp).mpr ?_
      rw [hwval]
      exact hw2
    · have ha : r1.indexOf (r1.getD (r2.indexOf w) 0) < r1.length :=
        List.indexOf_lt_length.mpr hmem
      have hval : r1.getD (r1.indexOf (r1.getD (r2.indexOf w) 0)) 0 =
          r1.getD (r2.indexOf w) 0 := by
        rw [List.getD_eq_getElem _ _ ha]
        exact List.getElem_indexOf ha
      rw [(heqv _ _ ha hb1).mp hval, hwval]

/-- Order-isomorphic relative-id lists produce identical rank lists. -/
theorem index_of_eq_of_iso {r1 r2 : List Nat} (hlen : r1.length = r2.length)
    (hiso : ∀ p q, p < r1.length → q < r1.length →
      (r1.getD p 0 ≤ r1.getD q 0 ↔ r2.getD p 0 ≤ r2.getD q 0)) :
    _index_of r1 (_unique r1) = _index_of r2 (_unique r2) := by
  unfold _index_of
  refine List.ext_getElem (by simp [hlen]) ?_
  intro n h1 h2
  have hn1 : n < r1.length := by simpa using h1
  have hn2 : n < r2.length := by simpa using h2
  rw [List.getElem_map, List.getElem_map]
  rw [indexOf_sorted_strict (unique_sorted r1) (mem_unique.mpr (List.getElem_mem hn1))]
  rw [indexOf_sorted_strict (unique_sorted r2) (mem_unique.mpr (List.getElem_mem hn2))]
  rw [length_filter_unique, length_filter_unique]
  have h := card_below_eq hlen hiso hn1
  rw [List.getD_eq_getElem _ _ hn1, List.getD_eq_getElem _ _ hn2] at h
  exact h

theorem extend_assignement_congr (s sc : List Nat) {r1 r2 : List Nat}
    (h : _index_of r1 (_unique r1) = _index_of r2 (_unique r2)) :
    _extend_assignement s sc r1 = _extend_assignement s sc r2 := by
  unfold _extend_assignement
  rw [h]

/-- C6: in a `split`/`assign` call with an explicit `cluster_ids_rel` of the
same length as `spike_ids` (distinct spike ids), the distinct relative
values, sorted ascending, are mapped to consecutive absolute ids starting
at `new_cluster_id()`: the label of the `p`-th named spike becomes the rank
of its relative value plus `new_cluster_id()`; and the resulting label
array is identical for any two relative-id lists that are order-isomorphic
(same comparison outcomes position by position). -/
theorem C6_rel_mapping (c : Clustering) (s r1 r2 : List Nat)
    (hnodup : s.Nodup)
    (hlen1 : r1.length = s.length) (hlen2 : r2.length = s.length)
    (hiso : ∀ p q, p < s.length → q < s.length →
      (r1.getD p 0 ≤ r1.getD q 0 ↔ r2.getD p 0 ≤ r2.getD q 0)) :
    (∀ (c2 : Clustering) (info : UpdateInfo),
      c.assign s (some r1) = .ok (c2, info) →
      ∀ p, p < s.length →
        c2.spike_clusters.getD (s.getD p 0) 0 =
          (_unique r1).indexOf (r1.getD p 0) + new_cluster_id c) ∧
    (∀ (c2 : Clustering) (info : UpdateInfo) (c2x : Clustering)
        (infox : UpdateInfo),
      c.assign s (some r1) = .ok (c2, info) →
      c.assign s (some r2) = .ok (c2x, infox) →
      c2.spike_clusters = c2x.spike_clusters) := by
  constructor
  · intro c2 info h p hp
    have hvalid := assign_ok_valid h
    have hsc := assign_ok_spike_clusters h
    simp only [Option.getD_some] at hsc
    rw [hsc]
    have hsp : s.getD p 0 < c.spike_clusters.length := by
      apply hvalid
      rw [List.getD_eq_getElem _ _ hp]
      exact List.getElem_mem _
    exact assign_out_mem s c.spike_clusters r1 hlen1 hnodup hsp
      (mem_eaPairs_of_s s c.spike_clusters r1 hlen1 hp)
  · intro c2 info c2x infox h1 h2
    have e1 := assign_ok_spike_clusters h1
    have e2 := assign_ok_spike_clusters h2
    simp only [Option.getD_some] at e1 e2
    have hidx := index_of_eq_of_iso (hlen1.trans hlen2.symm)
      (fun p q hp hq => hiso p q (hlen1 ▸ hp) (hlen1 ▸ hq))
    rw [e1, e2, extend_assignement_congr s c.spike_clusters hidx]

/-- Witness for C6 on the `test_extend_assignement` scenario: labels
`[3,5,2,9,5,5,2]`, spikes `[0,2]`, relative ids `[0,1]` versus the
order-isomorphic `[40,70]`: spike 0 gets rank 0 + `new_cluster_id` = 10,
spike 2 gets rank 1 + 10 = 11, and both calls produce the same array. -/
theorem C6_witness :
    (⟨[10, 5, 11, 9, 5, 5, 12], [3, 5, 2, 9, 5, 5, 2],
        [([0, 2, 6], [10, 11, 12])], 1⟩ : Clustering).spike_clusters.getD 0 0 =
      (_unique [0, 1]).indexOf 0 + new_cluster_id (Clustering.mk0 [3, 5, 2, 9, 5, 5, 2]) ∧
    (⟨[10, 5, 11, 9, 5, 5, 12], [3, 5, 2, 9, 5, 5, 2],
        [([0, 2, 6], [10, 11, 12])], 1⟩ : Clustering).spike_clusters.getD 2 0 =
      (_unique [0, 1]).indexOf 1 + new_cluster_id (Clustering.mk0 [3, 5, 2, 9, 5, 5, 2]) ∧
    (⟨[10, 5, 11, 9, 5, 5, 12], [3, 5, 2, 9, 5, 5, 2],
        [([0, 2, 6], [10, 11, 12])], 1⟩ : Clustering).spike_clusters =
      (⟨[10, 5, 11, 9, 5, 5, 12], [3, 5, 2, 9, 5, 5, 2],
        [([0, 2, 6], [10, 11, 12])], 1⟩ : Clustering).spike_clusters := by
  have hiso : ∀ p q, p < ([0, 2] : List Nat).length → q < ([0, 2] : List Nat).length →
      (([0, 1] : List Nat).getD p 0 ≤ ([0, 1] : List Nat).getD q 0 ↔
       ([40, 70] : List Nat).getD p 0 ≤ ([40, 70] : List Nat).getD q 0) := by
    intro p q hp hq
    have hp2 : p < 2 := by simpa using hp
    have hq2 : q < 2 := by simpa using hq
    interval_cases p <;> interval_cases q <;> decide
  have h := C6_rel_mapping (Clustering.mk0 [3, 5, 2, 9, 5, 5, 2]) [0, 2] [0, 1]
    [40, 70] (by decide) (by decide) (by decide) hiso
  refine ⟨?_, ?_, ?_⟩
  · exact h.1 _ _ rfl 0 (by decide)
  · exact h.1 _ _ rfl 1 (by decide)
  · exact h.2 _ _ _ _ rfl rfl

end Phy
